import Mathlib

/-!
Verification of the video2video frame-consistency pipeline.

The definitions below are a shallow embedding of the TypeScript source:
`src/components/VideoEditor.tsx` (orchestrator), `src/lib/video-processor.ts`
and `src/lib/gemini-editor.ts` (adapters), and the API routes
`api/edit-frame`, `api/extract-frames`, `api/analyze-diff` and
`api/reassemble-video`.  JavaScript strings are modelled as `List Char`
(lengths agree for the ASCII template text involved), JS numbers used as
counts as `Nat`, and the float duration/fps metadata as `ℚ`.
-/

namespace Video2Video

/-! ### Prompt synthesis (`processFrameWithDiff`, VideoEditor.tsx lines 75-124)

Source:
  const maxDiffLength = 1500 - originalPrompt.length;
  const truncatedDiff = detailedDiffSpec.length > maxDiffLength
    ? detailedDiffSpec.substring(0, maxDiffLength) + "... [truncated]"
    : detailedDiffSpec;
  const diffBasedPrompt =
    `Apply this specification: "${originalPrompt}"\n\nDetails: ${truncatedDiff}\n\nApply these changes precisely to maintain consistency.`;

`substring(0, e)` clamps a negative `e` to 0, hence the `(max 0 e).toNat`. -/

def c2Pre : List Char := "Apply this specification: \"".toList

def c2Mid : List Char := "\"\n\nDetails: ".toList

def c2Suf : List Char := "\n\nApply these changes precisely to maintain consistency.".toList

def truncMark : List Char := "... [truncated]".toList

def maxDiffLength (originalPrompt : List Char) : Int :=
  1500 - originalPrompt.length

def truncatedDiff (originalPrompt detailedDiffSpec : List Char) : List Char :=
  if (detailedDiffSpec.length : Int) > maxDiffLength originalPrompt then
    detailedDiffSpec.take (max 0 (maxDiffLength originalPrompt)).toNat ++ truncMark
  else
    detailedDiffSpec

def diffBasedPrompt (originalPrompt detailedDiffSpec : List Char) : List Char :=
  c2Pre ++ originalPrompt ++ c2Mid ++ truncatedDiff originalPrompt detailedDiffSpec ++ c2Suf

/-- Server-side validation in `api/edit-frame/route.ts` lines 48-55:
`if (prompt.length > 2000) return 400`. -/
def editFramePromptTooLong (prompt : List Char) : Bool :=
  decide (2000 < prompt.length)

/-! ### Analyzer truncation (`api/analyze-diff`, part_001 lines 251-275)

Source:
  if (detailedDiff.length > 5000) {
    detailedDiff = detailedDiff.substring(0, 4997) + "...";
  }
-/

def analyzerTruncate (detailedDiff : List Char) : List Char :=
  if detailedDiff.length > 5000 then detailedDiff.take 4997 ++ "...".toList
  else detailedDiff

/-! ### Frame extraction (`api/extract-frames/route.ts` lines 87-138; the
parallel variant in part_003 lines 97-147 computes the same plan)

Source:
  const totalFrames = Math.floor(duration * fps);
  const frameInterval = Math.max(1, interval);
  const framesToExtract = Math.min(Math.floor(totalFrames / frameInterval), maxFrames);
  for (let i = 0; i < framesToExtract; i++) {
    const frameNumber = i * frameInterval;
    const timestamp = frameNumber / fps;
    frames.push({ index: i, timestamp, ... });
  }
-/

def frameIntervalOf (interval : Nat) : Nat := max 1 interval

def totalFramesOf (duration fps : ℚ) : Nat := (duration * fps).floor.toNat

def framesToExtract (totalFrames interval maxFrames : Nat) : Nat :=
  min (totalFrames / frameIntervalOf interval) maxFrames

def frameTimestamp (fps : ℚ) (interval i : Nat) : ℚ :=
  ((i * frameIntervalOf interval : Nat) : ℚ) / fps

def extractedTimestamps (duration fps : ℚ) (interval maxFrames : Nat) : List ℚ :=
  (List.range (framesToExtract (totalFramesOf duration fps) interval maxFrames)).map
    (frameTimestamp fps interval)

/-! ### `GeminiEditor.editFrames` (`src/lib/gemini-editor.ts` lines 25-125)

The loop walks the input frames in order; each iteration reports a
"processing" progress, performs the edit call, and on ANY per-frame error
(failed response or failed download) reports an "error" progress and pushes a
fallback `EditedFrame` whose `editedUrl` is the frame's original url.  After
the loop one final "completed" progress is reported.  The outcome of the
external edit call for loop position `i` is modelled by `outcome i`
(`some url` on success, `none` on failure). -/

structure GFrame where
  index : Nat
  url : String
  deriving DecidableEq, Repr

structure GEditedFrame where
  index : Nat
  originalUrl : String
  editedUrl : String
  deriving DecidableEq, Repr

inductive PStatus
  | processing
  | error
  | completed
  deriving DecidableEq, Repr

structure Prog where
  current : Nat
  total : Nat
  currentFrame : Option Nat
  status : PStatus
  deriving DecidableEq, Repr

def editFramesGo (outcome : Nat → Option String) (total : Nat) :
    Nat → List GFrame → List GEditedFrame × List Prog
  | _, [] => ([], [])
  | i, f :: rest =>
    let pStart : Prog := ⟨i + 1, total, some f.index, .processing⟩
    match outcome i with
    | some u =>
      let r := editFramesGo outcome total (i + 1) rest
      (⟨f.index, f.url, u⟩ :: r.1, pStart :: r.2)
    | none =>
      let pErr : Prog := ⟨i + 1, total, some f.index, .error⟩
      let r := editFramesGo outcome total (i + 1) rest
      (⟨f.index, f.url, f.url⟩ :: r.1, pStart :: pErr :: r.2)

def editFrames (outcome : Nat → Option String) (frames : List GFrame) :
    List GEditedFrame × List Prog :=
  let r := editFramesGo outcome frames.length 0 frames
  (r.1, r.2 ++ [⟨frames.length, frames.length, none, .completed⟩])

/-! ### Orchestrator state machine (`handleProcessFrames`,
`src/components/VideoEditor.tsx` lines 188-464)

The React component state relevant to the claims is `currentStep`,
`editedFrames`, `error` and `isProcessing`.  The environment `Env` fixes the
outcome of every external call of one run: the reference-frame edit, the diff
analysis, each remaining-frame edit (`frameEdit i` for frame index `i ≥ 1`),
the order in which the dispatched parallel edits settle (`settleOrder`), and
the success of each reassembly attempt.  The returned trace lists the calls
in program order: the dispatched promises are created synchronously (in index
order) before any of them settles, and `await Promise.all` means every settle
precedes the reassembly calls.  Each settled success appends to
`allEditedFrames` and republishes state, also after `Promise.all` has already
rejected, so the quiescent `editedFrames` contains every success. -/

inductive Step
  | setup
  | extracting
  | previewFrames
  | editing
  | reassembling
  | complete
  deriving DecidableEq, Repr

structure EFrame where
  index : Nat
  originalUrl : String
  editedUrl : String
  deriving DecidableEq, Repr

structure EditorState where
  currentStep : Step
  editedFrames : List EFrame
  error : Option String
  isProcessing : Bool
  deriving DecidableEq, Repr

structure Env where
  firstEdit : Option String
  diffSpec : Option String
  frameEdit : Nat → Option String
  settleOrder : List Nat
  reassembleOk : Nat → Bool

inductive Ev
  | editRefCall
  | editRefDone
  | analyzeCall
  | analyzeDone
  | dispatch (i : Nat)
  | settle (i : Nat) (ok : Bool)
  | waitBackoff (ms : Nat)
  | reassembleCall (attempt : Nat)
  | reassembleDone (ok : Bool)
  deriving DecidableEq, Repr

/-- Indices of the dispatched remaining frames: `remainingFrames = slice(1)`
mapped with `i + 1` (VideoEditor.tsx lines 301, 332-334). -/
def fanIndices (n : Nat) : List Nat := (List.range (n - 1)).map (fun i => i + 1)

def dispatchEvents (n : Nat) : List Ev := (fanIndices n).map Ev.dispatch

def settleEvents (env : Env) : List Ev :=
  env.settleOrder.map (fun i => Ev.settle i (env.frameEdit i).isSome)

/-- The dispatched frame indices whose edit call succeeded, in settle order. -/
def fanoutSuccesses (env : Env) : List Nat :=
  env.settleOrder.filter (fun i => (env.frameEdit i).isSome)

/-- The `EditedFrame`s appended by the fan-out completions, in settle order
(`allEditedFrames.push(result)`, VideoEditor.tsx line 311). -/
def fanoutFrames (env : Env) (origs : List String) : List EFrame :=
  (fanoutSuccesses env).map
    (fun i => ⟨i, origs.getD i "", (env.frameEdit i).getD ""⟩)

/-- `allEditedFrames` at quiescence: the reference frame first (line 296),
then the fan-out completions in settle order. -/
def allEditedFrames (env : Env) (origs : List String) : List EFrame :=
  ⟨0, origs.getD 0 "", env.firstEdit.getD ""⟩ :: fanoutFrames env origs

def fanoutAllOk (env : Env) : Bool :=
  env.settleOrder.all (fun i => (env.frameEdit i).isSome)

/-- `editedFramesForReassembly = allEditedFrames.map(frame => ({index, url}))`
(VideoEditor.tsx lines 358-361). -/
def reassemblyInput (env : Env) (origs : List String) : List (Nat × String) :=
  (allEditedFrames env origs).map (fun f => (f.index, f.editedUrl))

/-- The retry loop of VideoEditor.tsx lines 389-426 with
`maxRetries = 2` and a fixed 1000 ms wait between attempts.  Returns the
emitted events and whether some attempt succeeded. -/
def reassembleRun (ok : Nat → Bool) : List Ev × Bool :=
  if ok 1 then ([.reassembleCall 1, .reassembleDone true], true)
  else if ok 2 then
    ([.reassembleCall 1, .reassembleDone false, .waitBackoff 1000,
      .reassembleCall 2, .reassembleDone true], true)
  else
    ([.reassembleCall 1, .reassembleDone false, .waitBackoff 1000,
      .reassembleCall 2, .reassembleDone false], false)

/-- One run of `handleProcessFrames`.  `origs` are the extracted frames'
base64 images (frame `i`'s image at position `i`); `init` is the component
state at entry (only relevant for the empty-frames early return).  URL
pre-validation (lines 366-384) only logs a warning and is omitted; human
readable error texts are abbreviated (the `statusText` interpolation is
dropped).  Failure of the reference edit or of the diff analysis throws into
the catch block (lines 448-463), which records the error and steps back to
`preview-frames`; partial fan-out failure rejects `Promise.all` into the same
catch; exhausted reassembly retries return early with step `editing`
(lines 405-420). -/
def runProcessFrames (init : EditorState) (env : Env) (origs : List String) :
    EditorState × List Ev :=
  if origs.isEmpty then
    ({ init with
        error := some "No frames available to process. Please extract frames first." },
     [])
  else
    match env.firstEdit with
    | none =>
        ({ currentStep := .previewFrames, editedFrames := [],
           error := some "First frame editing failed", isProcessing := false },
         [.editRefCall])
    | some refUrl =>
      match env.diffSpec with
      | none =>
          ({ currentStep := .previewFrames,
             editedFrames := [⟨0, origs.getD 0 "", refUrl⟩],
             error := some "Diff analysis failed", isProcessing := false },
           [.editRefCall, .editRefDone, .analyzeCall])
      | some _spec =>
          let pre : List Ev := [.editRefCall, .editRefDone, .analyzeCall, .analyzeDone]
          let fan : List Ev := dispatchEvents origs.length ++ settleEvents env
          if fanoutAllOk env then
            let r := reassembleRun env.reassembleOk
            if r.2 then
              ({ currentStep := .complete, editedFrames := allEditedFrames env origs,
                 error := none, isProcessing := false },
               pre ++ fan ++ r.1)
            else
              ({ currentStep := .editing, editedFrames := allEditedFrames env origs,
                 error := none, isProcessing := false },
               pre ++ fan ++ r.1)
          else
            ({ currentStep := .previewFrames, editedFrames := allEditedFrames env origs,
               error := some "Frame processing failed", isProcessing := false },
             pre ++ fan)

def processTrace (init : EditorState) (env : Env) (origs : List String) : List Ev :=
  (runProcessFrames init env origs).2

/-- The "Assemble Video Now" button is rendered exactly when the component is
in the `editing` step, not processing, and at least one edited frame exists
(VideoEditor.tsx lines 809, 902, 922-929). -/
def manualAssembleVisible (s : EditorState) : Bool :=
  s.currentStep == .editing && !s.isProcessing && !s.editedFrames.isEmpty

/-- Step navigation (`handleGoToStep`, VideoEditor.tsx lines 488-510): sets
the step, clears the error, stops processing; going back to `setup` or
`preview-frames` clears the edited frames, going to `editing` keeps them
(only the assembled-video url is cleared, which is not part of this state). -/
def handleGoToStep (s : EditorState) (step : Step) : EditorState :=
  match step with
  | .setup =>
      { currentStep := .setup, editedFrames := [], error := none, isProcessing := false }
  | .previewFrames =>
      { s with currentStep := .previewFrames, editedFrames := [], error := none,
               isProcessing := false }
  | other =>
      { s with currentStep := other, error := none, isProcessing := false }

/-- `handleManualAssemble` (VideoEditor.tsx lines 522-570) posts
`editedFrames.map(frame => ({index, url: frame.editedUrl}))` to reassembly. -/
def manualAssembleInput (s : EditorState) : List (Nat × String) :=
  s.editedFrames.map (fun f => (f.index, f.editedUrl))

/-! ### Reassembly service (`api/reassemble-video`, part_002, and
`reassembleVideo` in `src/lib/video-processor.ts` lines 58-95)

`reassembleVideo` strips the `index` field before posting
(`frames.map(frame => ({base64, url}))`), and the route names the staged
frame files by ARRAY POSITION: `frame_${index.toString().padStart(4,"0")}.png`
where `index` is the position from `frames.map((frame, index) => ...)`.
The only input validation is non-emptiness; no gap or ordering check exists.
Frame references are assumed resolvable (a failed fetch throws and is not
what these claims are about). -/

def pad4 (n : Nat) : String :=
  String.mk (List.replicate (4 - (toString n).length) '0' ++ (toString n).toList)

def serverFrameFilename (pos : Nat) : String := "frame_" ++ pad4 pos ++ ".png"

def serverFrameFilenames (frames : List (Nat × String)) : List String :=
  frames.mapIdx (fun pos _ => serverFrameFilename pos)

def reassembleServer (frames : List (Nat × String)) : Except String (List String) :=
  if frames.isEmpty then .error "No frames provided"
  else .ok (serverFrameFilenames frames)

/-! ### Temp-file cleanup of the reassembly route (part_002 lines 112-144
success path, 164-204 error path)

A tiny file-system model: `unlinkFs` follows the POSIX/Node semantics of
`fs.promises.unlink` — `ENOENT` when the path does not exist and `EISDIR`
when the path is a directory (`unlink` cannot remove directories).  Every
unlink in the route's cleanup is wrapped in `.catch(...)` or in the cleanup
try/catch block — modelled by `unlinkSwallow`, so cleanup never throws. -/

structure FsEntry where
  path : String
  isDir : Bool
  deriving DecidableEq, Repr

def unlinkFs (fs : List FsEntry) (p : String) : Except String (List FsEntry) :=
  match fs.find? (fun e => e.path == p) with
  | none => .error "ENOENT"
  | some e =>
    if e.isDir then .error "EISDIR"
    else .ok (fs.filter (fun e2 => e2.path != p))

def unlinkSwallow (fs : List FsEntry) (p : String) : List FsEntry :=
  match unlinkFs fs p with
  | .ok fs2 => fs2
  | .error _ => fs

/-- Success-path cleanup (part_002 lines 112-144): unlink every frame file
(each with `.catch`), unlink the output video file (with `.catch`), then
`await unlink(tempDir)` — whose error is caught by the surrounding
`try/catch` and only logged. -/
def reassembleSuccessCleanup (fs : List FsEntry) (framePaths : List String)
    (videoPath dirPath : String) : List FsEntry :=
  let fs1 := framePaths.foldl unlinkSwallow fs
  let fs2 := unlinkSwallow fs1 videoPath
  unlinkSwallow fs2 dirPath

/-! ### Trace-ordering vocabulary -/

/-- Every event satisfying `P` occurs strictly before every event satisfying
`Q` in the trace `tr`. -/
def SeqBefore (P Q : Ev → Prop) (tr : List Ev) : Prop :=
  ∀ (i j : Nat) (hi : i < tr.length) (hj : j < tr.length),
    P (tr.get ⟨i, hi⟩) → Q (tr.get ⟨j, hj⟩) → i < j

def isDispatchEv (e : Ev) : Prop := ∃ i, e = Ev.dispatch i

def isSettleEv (e : Ev) : Prop := ∃ i b, e = Ev.settle i b

def isReassembleCallEv (e : Ev) : Prop := ∃ a, e = Ev.reassembleCall a

def isReassembleCallB (e : Ev) : Bool :=
  match e with
  | Ev.reassembleCall _ => true
  | _ => false

/-! ### Concrete sessions used for witnesses and counterexamples -/

/-- Component state on entry of `handleProcessFrames` (auto-start from the
`editing` step). -/
def initSt : EditorState := ⟨.editing, [], none, true⟩

def origs3 : List String := ["o0", "o1", "o2"]

def origs10 : List String :=
  ["o0", "o1", "o2", "o3", "o4", "o5", "o6", "o7", "o8", "o9"]

/-- 3 frames, every call succeeds, the two dispatched edits settle out of
index order (frame 2 before frame 1). -/
def envC1 : Env :=
  ⟨some "r0", some "d", fun i => some ("e" ++ toString i), [2, 1], fun _ => true⟩

/-- 10 frames, frame 5's edit call fails, all other calls succeed. -/
def envC3 : Env :=
  ⟨some "r", some "d", fun i => if i == 5 then none else some "e",
   [1, 2, 3, 4, 5, 6, 7, 8, 9], fun _ => true⟩

/-- 3 frames, all edits succeed, both reassembly attempts fail. -/
def envC4 : Env :=
  ⟨some "r", some "d", fun _ => some "e", [1, 2], fun _ => false⟩

/-- 3 frames, all calls succeed, settle order [2, 1]. -/
def envC8 : Env :=
  ⟨some "r", some "d", fun _ => some "e", [2, 1], fun _ => true⟩

/-- 3 frames, frame 1's edit fails, settle order [2, 1]. -/
def envC9 : Env :=
  ⟨some "r", some "d", fun i => if i == 1 then none else some "e", [2, 1],
   fun _ => true⟩

def c5Dir : FsEntry := ⟨"/tmp/video_reassemble_s", true⟩

def c5Frame0 : FsEntry := ⟨"/tmp/video_reassemble_s/frame_0000.png", false⟩

def c5Frame1 : FsEntry := ⟨"/tmp/video_reassemble_s/frame_0001.png", false⟩

def c5Video : FsEntry := ⟨"/tmp/video_reassemble_s/output_s.mp4", false⟩

def c10Frames : List GFrame := [⟨0, "o0"⟩, ⟨1, "o1"⟩]

def c10Outcome : Nat → Option String := fun i => if i == 0 then some "e0" else none

end Video2Video

namespace Video2Video

/-- Claim C7: every diff specification returned by the analyzer in diff mode
has length at most 5000 characters; longer model responses are hard-truncated
(to 4997 characters plus "...") before being returned. -/
theorem c7_truncation (s : List Char) : (analyzerTruncate s).length ≤ 5000 := by
  have h3 : ("...".toList).length = 3 := rfl
  unfold analyzerTruncate
  split
  · simp only [List.length_append, List.length_take, h3]
    omega
  · omega

theorem c2Pre_length : c2Pre.length = 27 := rfl

theorem c2Mid_length : c2Mid.length = 12 := rfl

theorem c2Suf_length : c2Suf.length = 56 := rfl

theorem truncMark_length : truncMark.length = 15 := rfl

/-- Claim C2, counterexample: for a 1891-character user prompt and an empty
diff specification, the synthesized edit prompt has 2001 characters,
exceeding the 2000-character ceiling (and the edit-frame route would reject
it).  So the bound does not hold for every prompt length. -/
theorem c2_counterexample :
    2000 < (diffBasedPrompt (List.replicate 1891 'a') []).length ∧
    editFramePromptTooLong (diffBasedPrompt (List.replicate 1891 'a') []) = true := by
  have hr : (List.replicate 1891 'a').length = 1891 := by
    rw [List.length_replicate]
  have hc : ((([] : List Char)).length : Int) >
      maxDiffLength (List.replicate 1891 'a') := by
    unfold maxDiffLength
    rw [hr, List.length_nil]
    norm_num
  have hlen : (diffBasedPrompt (List.replicate 1891 'a') []).length = 2001 := by
    simp only [diffBasedPrompt, truncatedDiff, if_pos hc, List.take_nil,
      List.nil_append, List.length_append, c2Pre_length, c2Mid_length,
      c2Suf_length, truncMark_length, hr]
  constructor
  · omega
  · rw [editFramePromptTooLong, hlen]
    decide

/-- Claim C2, amended: for every user prompt of length at most 1890 and every
diff specification, the synthesized edit prompt has length at most 2000, and
only the diff specification is truncated — the user's prompt always appears
verbatim (as a contiguous segment) in the synthesized prompt. -/
theorem c2_amended (p d : List Char) (hp : p.length ≤ 1890) :
    (diffBasedPrompt p d).length ≤ 2000 ∧ p <:+: diffBasedPrompt p d := by
  constructor
  · unfold diffBasedPrompt truncatedDiff maxDiffLength
    by_cases hcase : (d.length : Int) > 1500 - p.length
    · rw [if_pos hcase]
      simp only [List.length_append, List.length_take, c2Pre_length,
        c2Mid_length, c2Suf_length, truncMark_length]
      omega
    · rw [if_neg hcase]
      simp only [List.length_append, c2Pre_length, c2Mid_length, c2Suf_length]
      omega
  · exact ⟨c2Pre, c2Mid ++ truncatedDiff p d ++ c2Suf, by
      simp [diffBasedPrompt]⟩

/-- Witness for `c2_amended` at a concrete prompt and diff. -/
theorem c2_witness :
    (diffBasedPrompt ['a'] ['b', 'c']).length ≤ 2000 ∧
    ['a'] <:+: diffBasedPrompt ['a'] ['b', 'c'] :=
  c2_amended ['a'] ['b', 'c'] (by decide)

/-- Claim C6: for every sampling policy with `intervalFrames ≥ 1` and
`maxFrames ≥ 1` (and a video whose probed fps is positive), frame extraction
returns at most `maxFrames` frames, and the returned timestamps
(`index * interval / fps`) are strictly increasing in frame index. -/
theorem c6_extraction (duration fps : ℚ) (interval maxFrames : Nat)
    (_hi : 1 ≤ interval) (_hm : 1 ≤ maxFrames) (hf : 0 < fps) :
    (extractedTimestamps duration fps interval maxFrames).length ≤ maxFrames ∧
    List.Pairwise (· < ·) (extractedTimestamps duration fps interval maxFrames) := by
  constructor
  · simp [extractedTimestamps, framesToExtract]
  · unfold extractedTimestamps
    rw [List.pairwise_map]
    refine List.Pairwise.imp ?_ (List.pairwise_lt_range _)
    intro a b hab
    unfold frameTimestamp
    have hpos : 0 < frameIntervalOf interval := by
      simp [frameIntervalOf]
    have hmul : a * frameIntervalOf interval < b * frameIntervalOf interval :=
      Nat.mul_lt_mul_of_lt_of_le hab (le_refl _) hpos
    have hq : ((a * frameIntervalOf interval : Nat) : ℚ) <
        ((b * frameIntervalOf interval : Nat) : ℚ) := by exact_mod_cast hmul
    exact div_lt_div_of_pos_right hq hf

/-- Witness for `c6_extraction` at a concrete video (1 second at 30 fps) and
sampling policy (every frame, at most 5 frames). -/
theorem c6_witness :
    (extractedTimestamps 1 30 1 5).length ≤ 5 ∧
    List.Pairwise (· < ·) (extractedTimestamps 1 30 1 5) :=
  c6_extraction 1 30 1 5 (by norm_num) (by norm_num) (by norm_num)

theorem editFramesGo_spec (outcome : Nat → Option String) (total : Nat) :
    ∀ (frames : List GFrame) (s : Nat),
      (editFramesGo outcome total s frames).1.length = frames.length ∧
      (editFramesGo outcome total s frames).1.map GEditedFrame.index =
        frames.map GFrame.index ∧
      ∀ k, k < frames.length → outcome (s + k) = none →
        ((editFramesGo outcome total s frames).1.getD k ⟨0, "", ""⟩).editedUrl =
          (frames.getD k ⟨0, ""⟩).url := by
  intro frames
  induction frames with
  | nil =>
    intro s
    refine ⟨rfl, rfl, ?_⟩
    intro k hk
    simp at hk
  | cons f rest ih =>
    intro s
    obtain ⟨ih1, ih2, ih3⟩ := ih (s + 1)
    cases hout : outcome s with
    | some u =>
      simp only [editFramesGo, hout]
      refine ⟨by simp [ih1], by simp [ih2], ?_⟩
      intro k hk hnone
      cases k with
      | zero => simp [hout] at hnone
      | succ k2 =>
        simp only [List.getD_cons_succ]
        have harg : s + (k2 + 1) = (s + 1) + k2 := by omega
        rw [harg] at hnone
        exact ih3 k2 (by simpa using hk) hnone
    | none =>
      simp only [editFramesGo, hout]
      refine ⟨by simp [ih1], by simp [ih2], ?_⟩
      intro k hk hnone
      cases k with
      | zero => simp
      | succ k2 =>
        simp only [List.getD_cons_succ]
        have harg : s + (k2 + 1) = (s + 1) + k2 := by omega
        rw [harg] at hnone
        exact ih3 k2 (by simpa using hk) hnone

/-- Claim C10: `GeminiEditor.editFrames` never rejects due to a per-frame
edit failure — it is a total function of the per-frame outcomes.  It returns
exactly one `EditedFrame` per input frame, in input order (same indices at
the same positions); for any frame whose edit call failed, the returned
`editedUrl` equals the frame's original url; and the final progress report
is the "completed" one. -/
theorem c10_editFrames (outcome : Nat → Option String) (frames : List GFrame) :
    (editFrames outcome frames).1.length = frames.length ∧
    (editFrames outcome frames).1.map GEditedFrame.index =
      frames.map GFrame.index ∧
    (∀ k, k < frames.length → outcome k = none →
      ((editFrames outcome frames).1.getD k ⟨0, "", ""⟩).editedUrl =
        (frames.getD k ⟨0, ""⟩).url) ∧
    (editFrames outcome frames).2.getLast?.map Prog.status =
      some PStatus.completed := by
  obtain ⟨h1, h2, h3⟩ := editFramesGo_spec outcome frames.length frames 0
  refine ⟨h1, h2, ?_, ?_⟩
  · intro k hk hnone
    exact h3 k hk (by simpa using hnone)
  · simp [editFrames]

/-- Witness for `c10_editFrames`: two frames, the second edit call fails —
both frames are returned, in order, and the failed one carries its original
url. -/
theorem c10_witness :
    (editFrames c10Outcome c10Frames).1.length = 2 ∧
    ((editFrames c10Outcome c10Frames).1.getD 1 ⟨0, "", ""⟩).editedUrl = "o1" := by
  have h := c10_editFrames c10Outcome c10Frames
  refine ⟨h.1, ?_⟩
  have h2 := h.2.2.1 1 (by decide) (by decide)
  rw [h2]
  rfl

theorem fanoutFrames_map_index (env : Env) (origs : List String) :
    (fanoutFrames env origs).map EFrame.index = fanoutSuccesses env := by
  simp [fanoutFrames, List.map_map]
  exact List.map_id _

theorem mem_fanIndices {n i : Nat} (h : i ∈ fanIndices n) : 1 ≤ i ∧ i < n := by
  simp only [fanIndices, List.mem_map, List.mem_range] at h
  obtain ⟨j, hj, rfl⟩ := h
  omega

theorem nodup_fanIndices (n : Nat) : (fanIndices n).Nodup := by
  refine (List.nodup_range _).map ?_
  intro a b hab
  simpa using hab

/-- Claim C9: at completion of the fan-out phase, the `EditedFrame.index`
values are a subset of the extracted indices `{0 .. frameCount-1}` and
contain no duplicate. -/
theorem c9_indices (env : Env) (origs : List String) (hne : origs ≠ [])
    (hperm : env.settleOrder.Perm (fanIndices origs.length)) :
    ((allEditedFrames env origs).map EFrame.index).Nodup ∧
    ∀ i ∈ (allEditedFrames env origs).map EFrame.index, i < origs.length := by
  have hbound : ∀ i ∈ fanoutSuccesses env, 1 ≤ i ∧ i < origs.length := by
    intro i hi
    have hmem : i ∈ env.settleOrder := List.mem_of_mem_filter hi
    exact mem_fanIndices (hperm.mem_iff.mp hmem)
  have hmap : (allEditedFrames env origs).map EFrame.index =
      0 :: fanoutSuccesses env := by
    simp only [allEditedFrames, List.map_cons, fanoutFrames_map_index]
  rw [hmap]
  refine ⟨List.nodup_cons.mpr ⟨?_, ?_⟩, ?_⟩
  · intro h0
    have := (hbound 0 h0).1
    omega
  · exact ((hperm.nodup_iff).mpr (nodup_fanIndices _)).filter _
  · intro i hi
    rcases List.mem_cons.mp hi with h0 | hmem
    · subst h0
      exact List.length_pos.mpr hne
    · exact (hbound i hmem).2

/-- Witness for `c9_indices`: three frames, one fan-out failure, settle order
[2, 1]. -/
theorem c9_witness :
    ((allEditedFrames envC9 origs3).map EFrame.index).Nodup ∧
    ∀ i ∈ (allEditedFrames envC9 origs3).map EFrame.index, i < origs3.length :=
  c9_indices envC9 origs3 (by decide) (by decide)

/-- Claim C1, code-bug evidence.  With three frames all successfully edited
but settling in the order [frame 2, frame 1], the input handed to reassembly
carries the indices `[0, 2, 1]` — NOT ascending by index.  Moreover the
reassembly service never looks at the `index` field (it is stripped by
`reassembleVideo` before posting): it names the staged files by array
position, so it also accepts an input with a missing index (frames {0, 2})
and silently renumbers it instead of failing. -/
theorem c1_bug :
    (reassemblyInput envC1 origs3).map Prod.fst = [0, 2, 1] ∧
    ¬ List.Pairwise (· ≤ ·) ((reassemblyInput envC1 origs3).map Prod.fst) ∧
    reassembleServer (reassemblyInput envC1 origs3) =
      .ok ["frame_0000.png", "frame_0001.png", "frame_0002.png"] ∧
    reassembleServer [(0, "a"), (2, "c")] =
      .ok ["frame_0000.png", "frame_0001.png"] := by
  refine ⟨rfl, ?_, rfl, rfl⟩
  decide

/-- Claim C5, code-bug evidence.  On the success path the route unlinks the
frame files and the output file, then calls `unlink` on the per-session
staging DIRECTORY; `unlink` cannot remove a directory (`EISDIR`), the error
is swallowed by the surrounding try/catch, and the directory is left behind.
Cleanup itself never throws: an already-missing entry yields a swallowed
`ENOENT`. -/
theorem c5_bug :
    reassembleSuccessCleanup [c5Dir, c5Frame0, c5Frame1, c5Video]
        [c5Frame0.path, c5Frame1.path] c5Video.path c5Dir.path = [c5Dir] ∧
    unlinkFs [c5Dir] c5Dir.path = Except.error "EISDIR" ∧
    unlinkSwallow [] c5Frame0.path = [] := by
  exact ⟨rfl, rfl, rfl⟩

theorem isEmpty_false_of_ne {α : Type} {l : List α} (h : l ≠ []) :
    l.isEmpty = false := by
  cases l with
  | nil => exact absurd rfl h
  | cons a t => rfl

theorem countP_isSome_add_isNone (f : Nat → Option String) (l : List Nat) :
    l.countP (fun i => (f i).isSome) + l.countP (fun i => (f i).isNone) =
      l.length := by
  induction l with
  | nil => rfl
  | cons a t ih =>
    cases h : f a <;> simp [List.countP_cons, h] <;> omega

theorem mem_dispatchEvents {n : Nat} {e : Ev} (h : e ∈ dispatchEvents n) :
    ∃ i, e = Ev.dispatch i := by
  simp only [dispatchEvents, List.mem_map] at h
  obtain ⟨i, _, rfl⟩ := h
  exact ⟨i, rfl⟩

theorem mem_settleEvents {env : Env} {e : Ev} (h : e ∈ settleEvents env) :
    ∃ i b, e = Ev.settle i b := by
  simp only [settleEvents, List.mem_map] at h
  obtain ⟨i, _, rfl⟩ := h
  exact ⟨i, _, rfl⟩

theorem settleOrder_length_of_perm {env : Env} {n : Nat}
    (hperm : env.settleOrder.Perm (fanIndices n)) :
    env.settleOrder.length = n - 1 := by
  rw [hperm.length_eq]
  simp [fanIndices]

/-- Claim C3, counterexample.  Ten extracted frames, frame 5's dispatched
edit fails while the other eight succeed: the run ends in the
`preview-frames` step, in which the manual-assembly affordance is NOT
exposed (it is only rendered in the `editing` step).  The nine successful
`EditedFrame`s are retained. -/
theorem c3_counterexample :
    (runProcessFrames initSt envC3 origs10).1.currentStep = Step.previewFrames ∧
    manualAssembleVisible (runProcessFrames initSt envC3 origs10).1 = false ∧
    (runProcessFrames initSt envC3 origs10).1.editedFrames.length = 9 := by
  exact ⟨rfl, rfl, rfl⟩

/-- Claim C3, amended: when exactly one dispatched frame edit fails and all
others succeed, the work is not discarded — the run ends in the
`preview-frames` (frame review) step with the successfully edited frames
(n−1 of n, the reference plus all non-failing dispatched frames) retained,
and no reassembly call is made (the automatic path requires 100% success).
The manual-assembly affordance is not exposed in that step; it becomes
visible once the caller navigates back to the `editing` step, which keeps
the retained frames. -/
theorem c3_amended (init : EditorState) (env : Env) (origs : List String)
    (hne : origs ≠ [])
    (hperm : env.settleOrder.Perm (fanIndices origs.length))
    (hfirst : env.firstEdit.isSome = true)
    (hdiff : env.diffSpec.isSome = true)
    (hone : env.settleOrder.countP (fun i => (env.frameEdit i).isNone) = 1) :
    (runProcessFrames init env origs).1.currentStep = Step.previewFrames ∧
    (runProcessFrames init env origs).1.editedFrames.length = origs.length - 1 ∧
    (∀ e ∈ (runProcessFrames init env origs).2, ∀ a, e ≠ Ev.reassembleCall a) ∧
    manualAssembleVisible
      (handleGoToStep (runProcessFrames init env origs).1 Step.editing) = true := by
  obtain ⟨r, hr⟩ := Option.isSome_iff_exists.mp hfirst
  obtain ⟨d, hd⟩ := Option.isSome_iff_exists.mp hdiff
  have hE : origs.isEmpty = false := isEmpty_false_of_ne hne
  have hex : ∃ i ∈ env.settleOrder, ((env.frameEdit i).isNone = true) := by
    have hpos : 0 < env.settleOrder.countP (fun i => (env.frameEdit i).isNone) := by
      omega
    simpa using List.countP_pos_iff.mp hpos
  have hfail : fanoutAllOk env = false := by
    obtain ⟨i, hi, hnone⟩ := hex
    unfold fanoutAllOk
    rw [Bool.eq_false_iff]
    intro hall
    have hsome := List.all_eq_true.mp hall i hi
    rw [Option.isNone_iff_eq_none.mp hnone] at hsome
    simp at hsome
  have hlenS : env.settleOrder.length = origs.length - 1 :=
    settleOrder_length_of_perm hperm
  have hcount := countP_isSome_add_isNone env.frameEdit env.settleOrder
  have hflen : (fanoutSuccesses env).length = origs.length - 2 := by
    unfold fanoutSuccesses
    rw [← List.countP_eq_length_filter]
    omega
  have hrun : runProcessFrames init env origs =
      ({ currentStep := .previewFrames, editedFrames := allEditedFrames env origs,
         error := some "Frame processing failed", isProcessing := false },
       [Ev.editRefCall, Ev.editRefDone, Ev.analyzeCall, Ev.analyzeDone] ++
         (dispatchEvents origs.length ++ settleEvents env)) := by
    simp [runProcessFrames, hE, hr, hd, hfail]
  have hn2 : 2 ≤ origs.length := by
    have hle : env.settleOrder.countP (fun i => (env.frameEdit i).isNone) ≤
        env.settleOrder.length := List.countP_le_length _
    omega
  rw [hrun]
  refine ⟨rfl, ?_, ?_, ?_⟩
  · simp only [allEditedFrames, fanoutFrames, List.length_cons, List.length_map]
    omega
  · intro e he a
    rcases List.mem_append.mp he with hpre | hfan
    · fin_cases hpre <;> simp
    · rcases List.mem_append.mp hfan with hdis | hset
      · obtain ⟨i, rfl⟩ := mem_dispatchEvents hdis
        simp
      · obtain ⟨i, b, rfl⟩ := mem_settleEvents hset
        simp
  · simp [handleGoToStep, manualAssembleVisible, allEditedFrames]

/-- Witness for `c3_amended` at the concrete ten-frame session of
`c3_counterexample`. -/
theorem c3_witness :
    (runProcessFrames initSt envC3 origs10).1.editedFrames.length =
      origs10.length - 1 ∧
    manualAssembleVisible
      (handleGoToStep (runProcessFrames initSt envC3 origs10).1 Step.editing) =
        true := by
  have h := c3_amended initSt envC3 origs10 (by decide) (by decide) (by decide)
    (by decide) (by decide)
  exact ⟨h.2.1, h.2.2.2⟩

/-- Claim C4: reassembly is attempted at most twice (exactly twice when both
attempts fail), with the fixed 1000 ms backoff wait between the attempts; on
final-attempt failure the session does not enter a fatal terminal state — it
returns to the `editing` step with no error thrown, every edited frame still
available (all n of them), the manual-assembly affordance visible, and the
manual reassembly input built from exactly those frames. -/
theorem c4_retry (init : EditorState) (env : Env) (origs : List String)
    (hne : origs ≠ [])
    (hperm : env.settleOrder.Perm (fanIndices origs.length))
    (hfirst : env.firstEdit.isSome = true)
    (hdiff : env.diffSpec.isSome = true)
    (hall : ∀ i ∈ env.settleOrder, (env.frameEdit i).isSome = true)
    (h1 : env.reassembleOk 1 = false) (h2 : env.reassembleOk 2 = false) :
    (runProcessFrames init env origs).1.currentStep = Step.editing ∧
    (runProcessFrames init env origs).1.isProcessing = false ∧
    (runProcessFrames init env origs).1.error = none ∧
    (runProcessFrames init env origs).1.editedFrames.length = origs.length ∧
    manualAssembleVisible (runProcessFrames init env origs).1 = true ∧
    (manualAssembleInput (runProcessFrames init env origs).1).length =
      origs.length ∧
    (runProcessFrames init env origs).2.countP isReassembleCallB = 2 ∧
    [Ev.reassembleCall 1, Ev.reassembleDone false, Ev.waitBackoff 1000,
     Ev.reassembleCall 2, Ev.reassembleDone false] <:+
      (runProcessFrames init env origs).2 := by
  obtain ⟨r, hr⟩ := Option.isSome_iff_exists.mp hfirst
  obtain ⟨d, hd⟩ := Option.isSome_iff_exists.mp hdiff
  have hE : origs.isEmpty = false := isEmpty_false_of_ne hne
  have hok : fanoutAllOk env = true := List.all_eq_true.mpr hall
  have hrr : reassembleRun env.reassembleOk =
      ([Ev.reassembleCall 1, Ev.reassembleDone false, Ev.waitBackoff 1000,
        Ev.reassembleCall 2, Ev.reassembleDone false], false) := by
    simp [reassembleRun, h1, h2]
  have hrun : runProcessFrames init env origs =
      ({ currentStep := .editing, editedFrames := allEditedFrames env origs,
         error := none, isProcessing := false },
       [Ev.editRefCall, Ev.editRefDone, Ev.analyzeCall, Ev.analyzeDone] ++
         (dispatchEvents origs.length ++ settleEvents env) ++
         [Ev.reassembleCall 1, Ev.reassembleDone false, Ev.waitBackoff 1000,
          Ev.reassembleCall 2, Ev.reassembleDone false]) := by
    simp [runProcessFrames, hE, hr, hd, hok, hrr]
  have hsucc : fanoutSuccesses env = env.settleOrder := by
    unfold fanoutSuccesses
    exact List.filter_eq_self.mpr hall
  have hlenS : env.settleOrder.length = origs.length - 1 :=
    settleOrder_length_of_perm hperm
  have hn1 : 1 ≤ origs.length := List.length_pos.mpr hne
  have hflen : (allEditedFrames env origs).length = origs.length := by
    simp only [allEditedFrames, fanoutFrames, List.length_cons, List.length_map,
      hsucc, hlenS]
    omega
  rw [hrun]
  refine ⟨rfl, rfl, rfl, hflen, ?_, ?_, ?_, ?_⟩
  · simp [manualAssembleVisible, allEditedFrames]
  · simp only [manualAssembleInput, List.length_map]
    exact hflen
  · rw [List.countP_append, List.countP_append]
    have hd0 : (dispatchEvents origs.length).countP isReassembleCallB = 0 := by
      rw [List.countP_eq_zero]
      intro e he
      obtain ⟨i, rfl⟩ := mem_dispatchEvents he
      simp [isReassembleCallB]
    have hs0 : (settleEvents env).countP isReassembleCallB = 0 := by
      rw [List.countP_eq_zero]
      intro e he
      obtain ⟨i, b, rfl⟩ := mem_settleEvents he
      simp [isReassembleCallB]
    rw [List.countP_append, hd0, hs0]
    rfl
  · exact ⟨_, rfl⟩

/-- Witness for `c4_retry`: three frames, all edits succeed, both reassembly
attempts fail. -/
theorem c4_witness :
    (runProcessFrames initSt envC4 origs3).1.currentStep = Step.editing ∧
    manualAssembleVisible (runProcessFrames initSt envC4 origs3).1 = true ∧
    (runProcessFrames initSt envC4 origs3).2.countP isReassembleCallB = 2 := by
  have h := c4_retry initSt envC4 origs3 (by decide) (by decide) (by decide)
    (by decide) (by decide) (by decide) (by decide)
  exact ⟨h.1, h.2.2.2.2.1, h.2.2.2.2.2.2.1⟩

theorem seqBefore_append {P Q : Ev → Prop} {l1 l2 : List Ev}
    (hP : ∀ e ∈ l2, ¬ P e) (hQ : ∀ e ∈ l1, ¬ Q e) : SeqBefore P Q (l1 ++ l2) := by
  intro i j hi hj hPi hQj
  by_cases hj1 : j < l1.length
  · exfalso
    have hget : (l1 ++ l2).get ⟨j, hj⟩ = l1.get ⟨j, hj1⟩ := by
      simp only [List.get_eq_getElem]
      rw [List.getElem_append_left]
    rw [hget] at hQj
    exact hQ _ (List.get_mem l1 j hj1) hQj
  · push_neg at hj1
    by_cases hi1 : i < l1.length
    · omega
    · exfalso
      push_neg at hi1
      have hi2 : i - l1.length < l2.length := by
        have hlen := hi
        simp only [List.length_append] at hlen
        omega
      have hget : (l1 ++ l2).get ⟨i, hi⟩ = l2.get ⟨i - l1.length, hi2⟩ := by
        simp only [List.get_eq_getElem]
        rw [List.getElem_append_right hi1]
      rw [hget] at hPi
      exact hP _ (List.get_mem l2 _ _) hPi

theorem seqBefore_of_no_q {P Q : Ev → Prop} {tr : List Ev}
    (h : ∀ e ∈ tr, ¬ Q e) : SeqBefore P Q tr := by
  intro i j hi hj hPi hQj
  exact absurd hQj (h _ (List.get_mem tr j hj))

theorem seqBefore_of_no_p {P Q : Ev → Prop} {tr : List Ev}
    (h : ∀ e ∈ tr, ¬ P e) : SeqBefore P Q tr := by
  intro i j hi hj hPi hQj
  exact absurd hPi (h _ (List.get_mem tr i hi))

theorem mem_reassembleRun {ok : Nat → Bool} {e : Ev}
    (h : e ∈ (reassembleRun ok).1) :
    (∃ a, e = Ev.reassembleCall a) ∨ (∃ b, e = Ev.reassembleDone b) ∨
      (∃ m, e = Ev.waitBackoff m) := by
  unfold reassembleRun at h
  by_cases h1 : ok 1 = true
  · rw [if_pos h1] at h
    simp only [List.mem_cons, List.not_mem_nil, or_false] at h
    rcases h with rfl | rfl
    · exact Or.inl ⟨_, rfl⟩
    · exact Or.inr (Or.inl ⟨_, rfl⟩)
  · rw [if_neg h1] at h
    by_cases h2 : ok 2 = true
    · rw [if_pos h2] at h
      simp only [List.mem_cons, List.not_mem_nil, or_false] at h
      rcases h with rfl | rfl | rfl | rfl | rfl
      · exact Or.inl ⟨_, rfl⟩
      · exact Or.inr (Or.inl ⟨_, rfl⟩)
      · exact Or.inr (Or.inr ⟨_, rfl⟩)
      · exact Or.inl ⟨_, rfl⟩
      · exact Or.inr (Or.inl ⟨_, rfl⟩)
    · rw [if_neg h2] at h
      simp only [List.mem_cons, List.not_mem_nil, or_false] at h
      rcases h with rfl | rfl | rfl | rfl | rfl
      · exact Or.inl ⟨_, rfl⟩
      · exact Or.inr (Or.inl ⟨_, rfl⟩)
      · exact Or.inr (Or.inr ⟨_, rfl⟩)
      · exact Or.inl ⟨_, rfl⟩
      · exact Or.inr (Or.inl ⟨_, rfl⟩)

theorem trace_firstFail (init : EditorState) (env : Env) (origs : List String)
    (hne : origs ≠ []) (hfe : env.firstEdit = none) :
    processTrace init env origs = [Ev.editRefCall] := by
  simp [processTrace, runProcessFrames, isEmpty_false_of_ne hne, hfe]

theorem trace_diffFail (init : EditorState) (env : Env) (origs : List String)
    (hne : origs ≠ []) (r : String) (hfe : env.firstEdit = some r)
    (hds : env.diffSpec = none) :
    processTrace init env origs =
      [Ev.editRefCall, Ev.editRefDone, Ev.analyzeCall] := by
  simp [processTrace, runProcessFrames, isEmpty_false_of_ne hne, hfe, hds]

theorem trace_fanFail (init : EditorState) (env : Env) (origs : List String)
    (hne : origs ≠ []) (r d : String) (hfe : env.firstEdit = some r)
    (hds : env.diffSpec = some d) (hfail : fanoutAllOk env = false) :
    processTrace init env origs =
      [Ev.editRefCall, Ev.editRefDone, Ev.analyzeCall, Ev.analyzeDone] ++
        (dispatchEvents origs.length ++ settleEvents env) := by
  simp [processTrace, runProcessFrames, isEmpty_false_of_ne hne, hfe, hds, hfail]

theorem trace_fanOk (init : EditorState) (env : Env) (origs : List String)
    (hne : origs ≠ []) (r d : String) (hfe : env.firstEdit = some r)
    (hds : env.diffSpec = some d) (hok : fanoutAllOk env = true) :
    processTrace init env origs =
      [Ev.editRefCall, Ev.editRefDone, Ev.analyzeCall, Ev.analyzeDone] ++
        (dispatchEvents origs.length ++ settleEvents env) ++
        (reassembleRun env.reassembleOk).1 := by
  by_cases hc : (reassembleRun env.reassembleOk).2 = true <;>
    simp [processTrace, runProcessFrames, isEmpty_false_of_ne hne, hfe, hds, hok, hc]

/-- Claim C8: the reference-frame edit completes before consistency analysis
begins, consistency analysis completes before any remaining-frame edit is
dispatched, and no reassembly call occurs until every dispatched fan-out edit
has settled — moreover, when a reassembly call occurs, a settle event exists
in the trace for every dispatched frame index. -/
theorem c8_ordering (init : EditorState) (env : Env) (origs : List String)
    (hne : origs ≠ [])
    (hperm : env.settleOrder.Perm (fanIndices origs.length)) :
    SeqBefore (· = Ev.editRefDone) (· = Ev.analyzeCall)
      (processTrace init env origs) ∧
    SeqBefore (· = Ev.analyzeDone) isDispatchEv (processTrace init env origs) ∧
    SeqBefore isSettleEv isReassembleCallEv (processTrace init env origs) ∧
    ((∃ a, Ev.reassembleCall a ∈ processTrace init env origs) →
      ∀ i ∈ fanIndices origs.length, ∃ b,
        Ev.settle i b ∈ processTrace init env origs) := by
  have hfanShape : ∀ e ∈ dispatchEvents origs.length ++ settleEvents env,
      (∃ i, e = Ev.dispatch i) ∨ (∃ i b, e = Ev.settle i b) := by
    intro e he
    rcases List.mem_append.mp he with h | h
    · exact Or.inl (mem_dispatchEvents h)
    · exact Or.inr (mem_settleEvents h)
  have hsettleMem : ∀ i ∈ fanIndices origs.length,
      Ev.settle i (env.frameEdit i).isSome ∈
        dispatchEvents origs.length ++ settleEvents env := by
    intro i hi
    refine List.mem_append.mpr (Or.inr ?_)
    exact List.mem_map.mpr ⟨i, hperm.mem_iff.mpr hi, rfl⟩
  cases hfe : env.firstEdit with
  | none =>
    rw [trace_firstFail init env origs hne hfe]
    refine ⟨?_, ?_, ?_, ?_⟩
    · refine seqBefore_of_no_q ?_
      intro e he
      simp only [List.mem_singleton] at he
      subst he
      simp
    · refine seqBefore_of_no_q ?_
      intro e he
      simp only [List.mem_singleton] at he
      subst he
      simp [isDispatchEv]
    · refine seqBefore_of_no_p ?_
      intro e he
      simp only [List.mem_singleton] at he
      subst he
      simp [isSettleEv]
    · rintro ⟨a, ha⟩
      simp at ha
  | some r =>
    cases hds : env.diffSpec with
    | none =>
      rw [trace_diffFail init env origs hne r hfe hds]
      refine ⟨?_, ?_, ?_, ?_⟩
      · refine @seqBefore_append _ _ [Ev.editRefCall, Ev.editRefDone]
          [Ev.analyzeCall] ?_ ?_
        · intro e he
          simp only [List.mem_singleton] at he
          subst he
          simp
        · intro e he
          rcases List.mem_cons.mp he with rfl | he2
          · simp
          · simp only [List.mem_singleton] at he2
            subst he2
            simp
      · refine seqBefore_of_no_q ?_
        intro e he
        rcases List.mem_cons.mp he with rfl | he2
        · simp [isDispatchEv]
        · rcases List.mem_cons.mp he2 with rfl | he3
          · simp [isDispatchEv]
          · simp only [List.mem_singleton] at he3
            subst he3
            simp [isDispatchEv]
      · refine seqBefore_of_no_p ?_
        intro e he
        rcases List.mem_cons.mp he with rfl | he2
        · simp [isSettleEv]
        · rcases List.mem_cons.mp he2 with rfl | he3
          · simp [isSettleEv]
          · simp only [List.mem_singleton] at he3
            subst he3
            simp [isSettleEv]
      · rintro ⟨a, ha⟩
        simp at ha
    | some d =>
      have hpre4 : ∀ e ∈ [Ev.editRefCall, Ev.editRefDone, Ev.analyzeCall,
          Ev.analyzeDone], ¬ isReassembleCallEv e := by
        intro e he
        fin_cases he <;> simp [isReassembleCallEv]
      have hpre4d : ∀ e ∈ [Ev.editRefCall, Ev.editRefDone, Ev.analyzeCall,
          Ev.analyzeDone], ¬ isDispatchEv e := by
        intro e he
        fin_cases he <;> simp [isDispatchEv]
      cases hok : fanoutAllOk env with
      | false =>
        rw [trace_fanFail init env origs hne r d hfe hds hok]
        refine ⟨?_, ?_, ?_, ?_⟩
        · refine @seqBefore_append _ _ [Ev.editRefCall, Ev.editRefDone]
            ([Ev.analyzeCall, Ev.analyzeDone] ++
              (dispatchEvents origs.length ++ settleEvents env)) ?_ ?_
          · intro e he
            rcases List.mem_append.mp he with h2 | hfan
            · fin_cases h2 <;> simp
            · rcases hfanShape e hfan with ⟨i, rfl⟩ | ⟨i, b, rfl⟩ <;> simp
          · intro e he
            fin_cases he <;> simp
        · refine @seqBefore_append _ _ [Ev.editRefCall, Ev.editRefDone,
            Ev.analyzeCall, Ev.analyzeDone]
            (dispatchEvents origs.length ++ settleEvents env) ?_ ?_
          · intro e he
            rcases hfanShape e he with ⟨i, rfl⟩ | ⟨i, b, rfl⟩ <;> simp
          · exact hpre4d
        · refine seqBefore_of_no_q ?_
          intro e he
          rcases List.mem_append.mp he with h4 | hfan
          · exact hpre4 e h4
          · rcases hfanShape e hfan with ⟨i, rfl⟩ | ⟨i, b, rfl⟩ <;>
              simp [isReassembleCallEv]
        · intro _ i hi
          exact ⟨(env.frameEdit i).isSome,
            List.mem_append.mpr (Or.inr (hsettleMem i hi))⟩
      | true =>
        rw [trace_fanOk init env origs hne r d hfe hds hok]
        have hr1Shape : ∀ e ∈ (reassembleRun env.reassembleOk).1,
            ¬ (e = Ev.editRefDone) ∧ ¬ (e = Ev.analyzeDone) ∧ ¬ isSettleEv e := by
          intro e he
          rcases mem_reassembleRun he with ⟨a, rfl⟩ | ⟨b, rfl⟩ | ⟨m, rfl⟩ <;>
            simp [isSettleEv]
        refine ⟨?_, ?_, ?_, ?_⟩
        · refine @seqBefore_append _ _ [Ev.editRefCall, Ev.editRefDone]
            (([Ev.analyzeCall, Ev.analyzeDone] ++
              (dispatchEvents origs.length ++ settleEvents env)) ++
              (reassembleRun env.reassembleOk).1) ?_ ?_
          · intro e he
            rcases List.mem_append.mp he with hmid | hr1
            · rcases List.mem_append.mp hmid with h2 | hfan
              · fin_cases h2 <;> simp
              · rcases hfanShape e hfan with ⟨i, rfl⟩ | ⟨i, b, rfl⟩ <;> simp
            · exact (hr1Shape e hr1).1
          · intro e he
            fin_cases he <;> simp
        · refine @seqBefore_append _ _ [Ev.editRefCall, Ev.editRefDone,
            Ev.analyzeCall, Ev.analyzeDone]
            ((dispatchEvents origs.length ++ settleEvents env) ++
              (reassembleRun env.reassembleOk).1) ?_ ?_
          · intro e he
            rcases List.mem_append.mp he with hfan | hr1
            · rcases hfanShape e hfan with ⟨i, rfl⟩ | ⟨i, b, rfl⟩ <;> simp
            · exact (hr1Shape e hr1).2.1
          · exact hpre4d
        · refine @seqBefore_append _ _
            ([Ev.editRefCall, Ev.editRefDone, Ev.analyzeCall, Ev.analyzeDone] ++
              (dispatchEvents origs.length ++ settleEvents env))
            (reassembleRun env.reassembleOk).1 ?_ ?_
          · intro e he
            exact (hr1Shape e he).2.2
          · intro e he
            rcases List.mem_append.mp he with h4 | hfan
            · exact hpre4 e h4
            · rcases hfanShape e hfan with ⟨i, rfl⟩ | ⟨i, b, rfl⟩ <;>
                simp [isReassembleCallEv]
        · intro _ i hi
          refine ⟨(env.frameEdit i).isSome, ?_⟩
          exact List.mem_append.mpr
            (Or.inl (List.mem_append.mpr (Or.inr (hsettleMem i hi))))

/-- Witness for `c8_ordering`: three frames, all calls succeed, settle order
[2, 1]; every dispatched frame has a settle event before the reassembly
call. -/
theorem c8_witness :
    SeqBefore isSettleEv isReassembleCallEv (processTrace initSt envC8 origs3) ∧
    (∃ b, Ev.settle 1 b ∈ processTrace initSt envC8 origs3) := by
  have h := c8_ordering initSt envC8 origs3 (by decide) (by decide)
  refine ⟨h.2.2.1, ?_⟩
  refine h.2.2.2 ⟨1, ?_⟩ 1 (by decide)
  decide

end Video2Video
